import Mathlib

/-!
Shallow embedding of the metrics-aggregation logic of the repository's two
scripts, `analysis/analyze_performance.py` and `load-tesst/scripts/analyze.py`,
together with theorems settling the specification claims about them.

Conventions of the embedding:
* a row of the JTL table is a `ResultRecord`; numeric columns are `Int`;
* Python floats are modelled as exact rationals; the float `NaN` produced by
  pandas on empty aggregations is modelled as `none` of an `Option` type;
* file access is modelled as an explicit function from paths to either a
  load error or the parsed rows, so the error-handling paths of the scripts
  become explicit `Except` branches.
-/

namespace OPS

/-- One row of the JTL result log: columns `timeStamp` (epoch ms), `elapsed`
(ms), `label`, `responseCode` (text), `success`. -/
structure ResultRecord where
  timeStamp : Int
  elapsed : Int
  label : String
  responseCode : String
  success : Bool
deriving Repr, DecidableEq

/-- Python `str.startswith(pre)`, modelled on the character lists. -/
def startsWithCode (pre s : String) : Bool :=
  pre.toList.isPrefixOf s.toList

/-- Occurrence of `pat` as a contiguous run at some position of `cs`. -/
def isInfixOfChars (pat : List Char) : List Char → Bool
  | [] => pat.isPrefixOf []
  | c :: cs => pat.isPrefixOf (c :: cs) || isInfixOfChars pat cs

/-- Python `pat in s` substring test (`df[...].str.contains(pat)`). -/
def containsSubstring (pat s : String) : Bool :=
  isInfixOfChars pat.toList s.toList

/-- Line 23 of `analyze_performance.py`: keep rows whose `label` contains the
substring `Complete Reservation`. -/
def filterByLabel (records : List ResultRecord) : List ResultRecord :=
  records.filter (fun r => containsSubstring "Complete Reservation" r.label)

/-- Linear-interpolation quantile over an already sorted list of values, the
estimator used by `Series.quantile`: with `n` values, the target rank is
`h = q * (n - 1)` and the result interpolates between the order statistics at
`floor h` and `floor h + 1`.  An empty list has no quantile (pandas returns
`NaN`), modelled as `none`. -/
def quantileSorted (q : ℚ) (s : List ℚ) : Option ℚ :=
  if s = [] then none
  else
    let h : ℚ := q * ((s.length : ℚ) - 1)
    let i : ℕ := h.floor.toNat
    let lo := s.getD i 0
    let hi := s.getD (i + 1) lo
    some (lo + (h - (h.floor : ℚ)) * (hi - lo))

/-- `Series.quantile q`: sort the values, then interpolate. -/
def quantile (q : ℚ) (xs : List ℚ) : Option ℚ :=
  quantileSorted q (xs.insertionSort (fun a b => a ≤ b))

/-- The `timeStamp` column of the record set, sorted ascending. -/
def sortedTs (records : List ResultRecord) : List Int :=
  (records.map (fun r => r.timeStamp)).insertionSort (fun a b => a ≤ b)

/-- `df['timeStamp'].min()`: the least timestamp, read off as the head of the
sorted column (`0` on an empty set, where the script never reads it). -/
def tsMin (records : List ResultRecord) : Int :=
  (sortedTs records).head?.getD 0

/-- `df['timeStamp'].max()`: the greatest timestamp, read off as the last
element of the sorted column (`0` on an empty set, never read there). -/
def tsMax (records : List ResultRecord) : Int :=
  (sortedTs records).getLast?.getD 0

/-- Lines 31-36 of `analyze_performance.py`: with more than one row the run
duration is `(timeStamp.max() - timeStamp.min()) / 1000`; with exactly one row
it is that row's `elapsed / 1000`; with no rows it is `0`. -/
def total_time_s : List ResultRecord → ℚ
  | [] => 0
  | [r] => (r.elapsed : ℚ) / 1000
  | r₁ :: r₂ :: rest =>
      ((tsMax (r₁ :: r₂ :: rest) - tsMin (r₁ :: r₂ :: rest) : Int) : ℚ) / 1000

/-- Line 41: `total_count = len(df)`. -/
def total_count (records : List ResultRecord) : ℕ :=
  records.length

/-- Lines 26 and 40: `success_count = len(df[responseCode.startswith('200')])`. -/
def success_count (records : List ResultRecord) : ℕ :=
  (records.filter (fun r => startsWithCode "200" r.responseCode)).length

/-- Modelled from the spec: the `expectedFailure` class (rows whose
`responseCode` starts with `"400"`) of `RunSummary.expectedFailureCount` is
described in the specification but the script computing it is not among the
sources; it is embedded here following the spec's words, symmetrically to
`success_count`. -/
def expected_failure_count (records : List ResultRecord) : ℕ :=
  (records.filter (fun r => startsWithCode "400" r.responseCode)).length

/-- Line 38: `throughput = len(df) / total_time_s if total_time_s > 0 else 0`. -/
def throughput (records : List ResultRecord) : ℚ :=
  if 0 < total_time_s records then (total_count records : ℚ) / total_time_s records else 0

/-- Line 42: `success_rate = success_count / total_count * 100 if total_count > 0 else 0`. -/
def success_rate (records : List ResultRecord) : ℚ :=
  if 0 < total_count records then
    (success_count records : ℚ) / (total_count records : ℚ) * 100
  else 0

/-- Line 29: `latency_95th = df['elapsed'].quantile(0.95) / 1000.0`; `none`
models the `NaN` pandas yields on an empty column. -/
def latency_95th (records : List ResultRecord) : Option ℚ :=
  (quantile (95 / 100) (records.map (fun r => (r.elapsed : ℚ)))).map (fun x => x / 1000)

/-- The summary record of one named run (the dict returned by `process_jtl`,
extended with the counts the script computes on the way and the spec-modelled
expected-failure count). -/
structure RunSummary where
  runName : String
  totalCount : ℕ
  successCount : ℕ
  expectedFailureCount : ℕ
  successRate : ℚ
  durationSeconds : ℚ
  throughputPerSecond : ℚ
  latencyP95Seconds : Option ℚ
deriving Repr, DecidableEq

/-- The pure aggregation core of `process_jtl`, applied to the label-filtered
record set (the spec's `summarize`). -/
def summarize (name : String) (records : List ResultRecord) : RunSummary :=
  { runName := name
    totalCount := total_count records
    successCount := success_count records
    expectedFailureCount := expected_failure_count records
    successRate := success_rate records
    durationSeconds := total_time_s records
    throughputPerSecond := throughput records
    latencyP95Seconds := latency_95th records }

/-- Errors of loading a JTL file: a missing path (`FileNotFoundError`) or any
other failure while reading or aggregating (the generic `except Exception`). -/
inductive LoadError where
  | fileNotFound
  | malformed (msg : String)
deriving Repr, DecidableEq

/-- Lines 19-65 of `analyze_performance.py`: read the file, filter by label,
aggregate; both `except` arms return `None`, modelled as `none`.  The file
system is an explicit argument mapping a path to its parsed rows or an error. -/
def process_jtl (fs : String → Except LoadError (List ResultRecord))
    (name path : String) : Option RunSummary :=
  match fs path with
  | Except.error _ => none
  | Except.ok rows => some (summarize name (filterByLabel rows))

/-- Lines 72-76 of `visualize_stress_test_results`: process every named run,
keeping the summaries of the runs that did not fail. -/
def visualize_stress_test_results (fs : String → Except LoadError (List ResultRecord))
    (runs : List (String × String)) : List RunSummary :=
  runs.filterMap (fun np => process_jtl fs np.1 np.2)

/-! Embedding of `load-tesst/scripts/analyze.py` (`JMeterAnalyzer`). -/

/-- The interval index assigned by `pd.cut` with its default options
(`right=True`, `include_lowest=False`): value `v` belongs to interval `i`
exactly when `bounds[i] < v ≤ bounds[i+1]`, left-open and right-closed; after
the last listed boundary the interval is open-ended, which models the
`float('inf')` final edge of the script's `bins` list.  A value at or below
the first boundary belongs to no interval (pandas yields `NaN`), hence
`none`. -/
def cutIndex : List ℚ → ℚ → Option ℕ
  | [], _ => none
  | [b], v => if b < v then some 0 else none
  | b :: b' :: rest, v =>
      if b < v ∧ v ≤ b' then some 0
      else (cutIndex (b' :: rest) v).map (fun i => i + 1)

/-- Line 149: `bins = [0, 50, 100, 200, 500, 1000, 2000, float('inf')]`; the
final infinite edge is represented by `cutIndex`'s open-ended last interval,
so only the finite edges are listed. -/
def bins : List ℚ := [0, 50, 100, 200, 500, 1000, 2000]

/-- Line 153: `latency_bin = pd.cut(df['elapsed'], bins=bins)` for one row. -/
def latency_bin (bounds : List ℚ) (r : ResultRecord) : Option ℕ :=
  cutIndex bounds (r.elapsed : ℚ)

/-- Line 154: `distribution = df['latency_bin'].value_counts().sort_index()` —
the occupancy of each interval, listed in boundary order (rows whose bin is
`NaN` are counted nowhere, as `value_counts` drops `NaN`). -/
def analyze_latency_distribution (bounds : List ℚ) (records : List ResultRecord) : List ℕ :=
  (List.range bounds.length).map
    (fun i => (records.filter (fun r => decide (latency_bin bounds r = some i))).length)

/-- Line 126: the 5-second resampling key of a timestamp — all rows with the
same key fall in the same fixed-size window (`w` seconds wide). -/
def windowKey (w : ℕ) (t : Int) : Int :=
  t / ((w : Int) * 1000)

/-- The distinct window keys of a record set, in order of first occurrence. -/
def windowKeys (w : ℕ) (records : List ResultRecord) : List Int :=
  (records.map (fun r => windowKey w r.timeStamp)).dedup

/-- Arithmetic mean of a list of rationals (`Series.mean`); division by zero
yields `0`, but the function is only applied to non-empty groups. -/
def listMean (xs : List ℚ) : ℚ :=
  xs.sum / (xs.length : ℚ)

/-- Line 126: `response_time_series = df.set_index('timeStamp')['elapsed']
.resample('5S').mean()`, restricted to its non-`NaN` entries: the mean
`elapsed` of every non-empty window, keyed by window. -/
def response_time_series (w : ℕ) (records : List ResultRecord) : List (Int × ℚ) :=
  (windowKeys w records).map (fun k =>
    (k, listMean ((records.filter (fun r => decide (windowKey w r.timeStamp = k))).map
          (fun r => (r.elapsed : ℚ)))))

/-- Lines 129-130 generalized over the window width and the multiplier: keep
the windows whose mean strictly exceeds `mult × (mean of the window means)`.
The script instantiates `w = 5` and `mult = 2`
(`threshold = response_time_series.mean() * 2`). -/
def detectAnomalousWindows (w : ℕ) (mult : ℚ) (records : List ResultRecord) :
    List (Int × ℚ) :=
  let series := response_time_series w records
  let threshold := mult * listMean (series.map (fun p => p.2))
  series.filter (fun p => decide (threshold < p.2))

/-- Lines 126-130 of `detect_bottlenecks`: the script's fixed instantiation. -/
def detect_bottlenecks (records : List ResultRecord) : List (Int × ℚ) :=
  detectAnomalousWindows 5 2 records

/-- Lines 285-303 of `analyze.py` (`main`): exit `1` when no path argument is
given (`len(sys.argv) < 2`), exit `1` when the path does not exist, otherwise
run the analysis and exit `0` on success and `1` on failure.  `argv` includes
the program name in position `0`; the file system and the analysis outcome
are explicit boolean oracles. -/
def main (argv : List String) (pathExists : String → Bool) (analysisOk : String → Bool) : ℕ :=
  if argv.length < 2 then 1
  else
    let jtl_file := argv[1]?.getD ""
    if pathExists jtl_file = false then 1
    else if analysisOk jtl_file then 0 else 1

/-! Helper lemmas. -/

theorem head_getD_mem {s : List Int} (h : s ≠ []) : s.head?.getD 0 ∈ s := by
  cases s with
  | nil => exact absurd rfl h
  | cons a t => exact List.mem_cons_self a t

theorem getLast_getD_mem {s : List Int} (h : s ≠ []) : s.getLast?.getD 0 ∈ s := by
  cases hg : s.getLast? with
  | none =>
    cases s with
    | nil => exact absurd rfl h
    | cons a t => simp [List.getLast?_eq_getLast] at hg
  | some a =>
    simpa using List.mem_of_getLast?_eq_some hg

theorem sorted_head_le {s : List Int} (hs : List.Sorted (fun a b => a ≤ b) s) {x : Int}
    (hx : x ∈ s) : s.head?.getD 0 ≤ x := by
  cases s with
  | nil => cases hx
  | cons a t =>
    rcases List.mem_cons.mp hx with rfl | hxt
    · exact le_refl x
    · exact List.rel_of_sorted_cons hs x hxt

theorem sorted_le_getLast {s : List Int} (hs : List.Sorted (fun a b => a ≤ b) s) {x : Int}
    (hx : x ∈ s) : x ≤ s.getLast?.getD 0 := by
  induction s with
  | nil => cases hx
  | cons a t ih =>
    cases t with
    | nil =>
      rcases List.mem_cons.mp hx with rfl | hxt
      · simp
      · cases hxt
    | cons b t' =>
      rw [List.getLast?_cons_cons]
      rcases List.mem_cons.mp hx with rfl | hxt
      · have hmem : (b :: t').getLast?.getD 0 ∈ b :: t' :=
          getLast_getD_mem (by simp)
        exact List.rel_of_sorted_cons hs _ hmem
      · exact ih hs.of_cons hxt

theorem sortedTs_sorted (l : List ResultRecord) :
    List.Sorted (fun a b => a ≤ b) (sortedTs l) :=
  List.sorted_insertionSort _ _

theorem sortedTs_perm (l : List ResultRecord) :
    (sortedTs l).Perm (l.map (fun r => r.timeStamp)) :=
  List.perm_insertionSort _ _

theorem sortedTs_eq_of_perm {l₁ l₂ : List ResultRecord} (h : l₁.Perm l₂) :
    sortedTs l₁ = sortedTs l₂ :=
  List.eq_of_perm_of_sorted
    ((sortedTs_perm l₁).trans ((h.map _).trans (sortedTs_perm l₂).symm))
    (sortedTs_sorted l₁) (sortedTs_sorted l₂)

theorem sortedTs_ne_nil {l : List ResultRecord} (h : l ≠ []) : sortedTs l ≠ [] := by
  intro hnil
  have := (sortedTs_perm l).symm.length_eq
  rw [hnil] at this
  simp at this
  exact h this

theorem tsMax_mem {l : List ResultRecord} (h : l ≠ []) :
    tsMax l ∈ l.map (fun r => r.timeStamp) :=
  (sortedTs_perm l).mem_iff.mp (getLast_getD_mem (sortedTs_ne_nil h))

theorem le_tsMax {l : List ResultRecord} {t : Int}
    (ht : t ∈ l.map (fun r => r.timeStamp)) : t ≤ tsMax l :=
  sorted_le_getLast (sortedTs_sorted l) ((sortedTs_perm l).mem_iff.mpr ht)

theorem tsMin_mem {l : List ResultRecord} (h : l ≠ []) :
    tsMin l ∈ l.map (fun r => r.timeStamp) :=
  (sortedTs_perm l).mem_iff.mp (head_getD_mem (sortedTs_ne_nil h))

theorem tsMin_le {l : List ResultRecord} {t : Int}
    (ht : t ∈ l.map (fun r => r.timeStamp)) : tsMin l ≤ t :=
  sorted_head_le (sortedTs_sorted l) ((sortedTs_perm l).mem_iff.mpr ht)

theorem total_time_s_of_one_lt {l : List ResultRecord} (h : 1 < l.length) :
    total_time_s l = ((tsMax l - tsMin l : Int) : ℚ) / 1000 := by
  match l with
  | [] => simp at h
  | [r] => simp at h
  | r₁ :: r₂ :: rest => rfl

theorem length_filter_add_length_filter_le {α : Type} (p q : α → Bool)
    (h : ∀ x, ¬(p x = true ∧ q x = true)) (l : List α) :
    (l.filter p).length + (l.filter q).length ≤ l.length := by
  induction l with
  | nil => simp
  | cons a t ih =>
    by_cases hp : p a = true
    · have hq : ¬ q a = true := fun hq => h a ⟨hp, hq⟩
      simp [List.filter_cons, hp, hq]
      omega
    · by_cases hq : q a = true
      · simp [List.filter_cons, hp, hq]
        omega
      · simp [List.filter_cons, hp, hq]
        omega

theorem startsWithCode_200_400_disjoint (s : String) :
    ¬(startsWithCode "200" s = true ∧ startsWithCode "400" s = true) := by
  unfold startsWithCode
  have h2 : "200".toList = ['2', '0', '0'] := rfl
  have h4 : "400".toList = ['4', '0', '0'] := rfl
  rw [h2, h4]
  cases hs : s.toList with
  | nil => simp [List.isPrefixOf]
  | cons c cs =>
    rintro ⟨ha, hb⟩
    simp only [List.isPrefixOf, Bool.and_eq_true, beq_iff_eq] at ha hb
    rw [← ha.1] at hb
    exact absurd hb.1 (by decide)

theorem insertionSortQ_eq_of_perm {xs ys : List ℚ} (h : xs.Perm ys) :
    xs.insertionSort (fun a b => a ≤ b) = ys.insertionSort (fun a b => a ≤ b) :=
  List.eq_of_perm_of_sorted
    ((List.perm_insertionSort _ xs).trans (h.trans (List.perm_insertionSort _ ys).symm))
    (List.sorted_insertionSort _ xs) (List.sorted_insertionSort _ ys)

theorem quantile_eq_of_perm {q : ℚ} {xs ys : List ℚ} (h : xs.Perm ys) :
    quantile q xs = quantile q ys := by
  unfold quantile
  rw [insertionSortQ_eq_of_perm h]

theorem list_sum_const {xs : List ℚ} {m : ℚ} (h : ∀ x ∈ xs, x = m) :
    xs.sum = (xs.length : ℚ) * m := by
  induction xs with
  | nil => simp
  | cons a t ih =>
    have ha : a = m := h a (List.mem_cons_self a t)
    have ht : t.sum = (t.length : ℚ) * m := ih (fun x hx => h x (List.mem_cons_of_mem a hx))
    rw [List.sum_cons, ha, ht, List.length_cons]
    push_cast
    ring

theorem listMean_const {xs : List ℚ} {m : ℚ} (h : ∀ x ∈ xs, x = m) (hne : xs ≠ []) :
    listMean xs = m := by
  unfold listMean
  rw [list_sum_const h]
  have hlen : (xs.length : ℚ) ≠ 0 := by
    simpa using List.length_pos.mpr hne |>.ne'
  rw [mul_comm, mul_div_assoc, div_self hlen, mul_one]

theorem cutIndex_lt_length {v : ℚ} : ∀ {bs : List ℚ} {i : ℕ},
    cutIndex bs v = some i → i < bs.length := by
  intro bs
  induction bs with
  | nil => intro i h; simp [cutIndex] at h
  | cons b rest ih =>
    intro i h
    cases rest with
    | nil =>
      simp only [cutIndex] at h
      split at h
      · simp at h
        simp [← h]
      · cases h
    | cons b' rest' =>
      simp only [cutIndex] at h
      split at h
      · simp at h
        simp [← h]
      · rcases Option.map_eq_some'.mp h with ⟨j, hj, rfl⟩
        have := ih hj
        simp only [List.length_cons] at this ⊢
        omega

theorem cutIndex_spec {v : ℚ} : ∀ {bs : List ℚ} {i : ℕ},
    cutIndex bs v = some i →
      bs.getD i 0 < v ∧ (i + 1 < bs.length → v ≤ bs.getD (i + 1) 0) := by
  intro bs
  induction bs with
  | nil => intro i h; simp [cutIndex] at h
  | cons b rest ih =>
    intro i h
    cases rest with
    | nil =>
      simp only [cutIndex] at h
      split at h
      · simp at h
        subst h
        refine ⟨by assumption, ?_⟩
        intro hlt
        simp at hlt
      · cases h
    | cons b' rest' =>
      simp only [cutIndex] at h
      split at h
      · simp at h
        subst h
        rename_i hcond
        exact ⟨hcond.1, fun _ => hcond.2⟩
      · rcases Option.map_eq_some'.mp h with ⟨j, hj, rfl⟩
        rcases ih hj with ⟨h1, h2⟩
        refine ⟨by simpa using h1, ?_⟩
        intro hlt
        have : j + 1 < (b' :: rest').length := by
          simp only [List.length_cons] at hlt ⊢
          omega
        simpa using h2 this

theorem cutIndex_none_iff {v : ℚ} : ∀ {b : ℚ} {bs : List ℚ},
    List.Sorted (fun a b => a ≤ b) (b :: bs) →
      (cutIndex (b :: bs) v = none ↔ v ≤ b) := by
  intro b bs
  induction bs generalizing b with
  | nil =>
    intro _
    simp only [cutIndex]
    split
    · rename_i hlt
      simp
      exact hlt
    · rename_i hlt
      simp
      exact not_lt.mp hlt
  | cons b' rest ih =>
    intro hs
    have hbb' : b ≤ b' := List.rel_of_sorted_cons hs b' (List.mem_cons_self b' rest)
    simp only [cutIndex]
    split
    · rename_i hcond
      simp
      exact hcond.1
    · rename_i hcond
      rw [Option.map_eq_none']
      rw [ih hs.of_cons]
      constructor
      · intro hvb'
        by_contra hvb
        push_neg at hvb
        exact hcond ⟨hvb, hvb'⟩
      · intro hvb
        exact le_trans hvb hbb'

theorem range_map_sum (f : ℕ → ℕ) (n : ℕ) :
    ((List.range n).map f).sum = ∑ i in Finset.range n, f i := by
  induction n with
  | zero => simp
  | succ k ih => simp [List.range_succ, Finset.sum_range_succ, ih]

theorem filter_length_cons {α : Type} (p : α → Bool) (a : α) (l : List α) :
    (List.filter p (a :: l)).length
      = (if p a = true then 1 else 0) + (List.filter p l).length := by
  by_cases hp : p a = true
  · simp [List.filter_cons, hp]
    omega
  · simp [List.filter_cons, hp]

theorem sum_indicator_range {n j : ℕ} (hj : j < n) :
    (∑ i in Finset.range n, if j = i then 1 else 0) = 1 := by
  rw [Finset.sum_ite_eq]
  simp [Finset.mem_range.mpr hj]

theorem distribution_sum (bounds : List ℚ) (records : List ResultRecord) :
    (analyze_latency_distribution bounds records).sum
      = (records.filter (fun r => (latency_bin bounds r).isSome)).length := by
  unfold analyze_latency_distribution
  rw [range_map_sum]
  induction records with
  | nil => simp
  | cons r rs ih =>
    have hsplit : ∀ i : ℕ,
        (List.filter (fun x => decide (latency_bin bounds x = some i)) (r :: rs)).length
          = (if latency_bin bounds r = some i then 1 else 0)
            + (List.filter (fun x => decide (latency_bin bounds x = some i)) rs).length := by
      intro i
      rw [filter_length_cons]
      by_cases hc : latency_bin bounds r = some i <;> simp [hc]
    calc (∑ i in Finset.range bounds.length,
            (List.filter (fun x => decide (latency_bin bounds x = some i)) (r :: rs)).length)
        = (∑ i in Finset.range bounds.length,
            ((if latency_bin bounds r = some i then 1 else 0)
              + (List.filter (fun x => decide (latency_bin bounds x = some i)) rs).length)) := by
          exact Finset.sum_congr rfl (fun i _ => hsplit i)
      _ = (∑ i in Finset.range bounds.length, if latency_bin bounds r = some i then 1 else 0)
            + (∑ i in Finset.range bounds.length,
                (List.filter (fun x => decide (latency_bin bounds x = some i)) rs).length) := by
          rw [Finset.sum_add_distrib]
      _ = (if (latency_bin bounds r).isSome then 1 else 0)
            + (rs.filter (fun x => (latency_bin bounds x).isSome)).length := by
          rw [ih]
          congr 1
          cases hc : latency_bin bounds r with
          | none => simp [hc]
          | some j =>
            have hj : j < bounds.length := cutIndex_lt_length hc
            simp only [hc, Option.some.injEq, Option.isSome_some, if_true]
            exact sum_indicator_range hj
      _ = ((r :: rs).filter (fun x => (latency_bin bounds x).isSome)).length := by
          rw [filter_length_cons]

theorem total_count_eq_of_perm {l₁ l₂ : List ResultRecord} (h : l₁.Perm l₂) :
    total_count l₁ = total_count l₂ :=
  h.length_eq

theorem success_count_eq_of_perm {l₁ l₂ : List ResultRecord} (h : l₁.Perm l₂) :
    success_count l₁ = success_count l₂ :=
  (h.filter _).length_eq

theorem expected_failure_count_eq_of_perm {l₁ l₂ : List ResultRecord} (h : l₁.Perm l₂) :
    expected_failure_count l₁ = expected_failure_count l₂ :=
  (h.filter _).length_eq

theorem success_rate_eq_of_perm {l₁ l₂ : List ResultRecord} (h : l₁.Perm l₂) :
    success_rate l₁ = success_rate l₂ := by
  unfold success_rate
  rw [total_count_eq_of_perm h, success_count_eq_of_perm h]

theorem total_time_s_eq_of_perm {l₁ l₂ : List ResultRecord} (h : l₁.Perm l₂) :
    total_time_s l₁ = total_time_s l₂ := by
  cases l₁ with
  | nil =>
    have : l₂ = [] := h.symm.eq_nil
    rw [this]
  | cons a t =>
    cases t with
    | nil =>
      have : l₂ = [a] := List.perm_singleton.mp h.symm
      rw [this]
    | cons b t' =>
      have h1 : 1 < (a :: b :: t').length := by simp
      have h2 : 1 < l₂.length := by rw [← h.length_eq]; exact h1
      rw [total_time_s_of_one_lt h1, total_time_s_of_one_lt h2]
      unfold tsMax tsMin
      rw [sortedTs_eq_of_perm h]

theorem throughput_eq_of_perm {l₁ l₂ : List ResultRecord} (h : l₁.Perm l₂) :
    throughput l₁ = throughput l₂ := by
  unfold throughput
  rw [total_count_eq_of_perm h, total_time_s_eq_of_perm h]

theorem latency_95th_eq_of_perm {l₁ l₂ : List ResultRecord} (h : l₁.Perm l₂) :
    latency_95th l₁ = latency_95th l₂ := by
  unfold latency_95th
  rw [quantile_eq_of_perm (h.map _)]

/-! Claim theorems. -/

/-- Claim C1, counterexample: on an empty label-filtered record set the
95th-percentile latency computed by `process_jtl` is pandas' `NaN` (modelled
as `none`), not `0`, so the claim that all latency percentile fields equal
`0` is false on the code. -/
theorem summarize_empty_latency_not_zero :
    (summarize "Competitive_100" []).latencyP95Seconds ≠ some 0 := by
  with_unfolding_all decide

/-- Claim C1, amended: for every run name, an empty label-filtered record set
yields a summary with `totalCount = 0`, `throughputPerSecond = 0`,
`durationSeconds = 0`, `successRate = 0` and an undefined latency percentile
(`NaN` in the code, `none` here) rather than `0`; no exception is raised —
the aggregation is a total function. -/
theorem summarize_empty_eq (name : String) :
    summarize name [] =
      { runName := name, totalCount := 0, successCount := 0, expectedFailureCount := 0,
        successRate := 0, durationSeconds := 0, throughputPerSecond := 0,
        latencyP95Seconds := none } := by
  with_unfolding_all rfl

/-- Claim C2: the summary partitions records by response-code class — codes
starting with `200` count as successes, codes starting with `400` as expected
failures — and on the three records with elapsed `100, 200, 300`, codes
`200, 200, 400` and timestamps `1000, 2000, 3000` it returns `totalCount = 3`,
`successCount = 2`, `expectedFailureCount = 1`, `durationSeconds = 2` and
`throughputPerSecond = 3/2`. -/
theorem summarize_three_record_example :
    summarize "run"
        [⟨1000, 100, "Complete Reservation (Saga Test)", "200", true⟩,
         ⟨2000, 200, "Complete Reservation (Saga Test)", "200", true⟩,
         ⟨3000, 300, "Complete Reservation (Saga Test)", "400", false⟩]
      = { runName := "run", totalCount := 3, successCount := 2, expectedFailureCount := 1,
          successRate := 200 / 3, durationSeconds := 2, throughputPerSecond := 3 / 2,
          latencyP95Seconds := some (29 / 100) } := by
  with_unfolding_all decide

/-- Claim C3: the run duration is `(max timestamp - min timestamp) / 1000`
when there is more than one record (with `tsMax`/`tsMin` characterised as the
greatest and least timestamps of the set), the single record's `elapsed / 1000`
when there is exactly one, and `0` when there are none; throughput is
`totalCount / durationSeconds` when the duration is positive and `0`
otherwise; in particular a single record with `elapsed = 500` yields a
duration of `1/2` second and a throughput of `2`. -/
theorem duration_and_throughput_rules (l : List ResultRecord) (r0 : ResultRecord) :
    (1 < l.length →
        total_time_s l = ((tsMax l - tsMin l : Int) : ℚ) / 1000
        ∧ tsMax l ∈ l.map (fun r => r.timeStamp)
        ∧ (∀ t ∈ l.map (fun r => r.timeStamp), t ≤ tsMax l)
        ∧ tsMin l ∈ l.map (fun r => r.timeStamp)
        ∧ (∀ t ∈ l.map (fun r => r.timeStamp), tsMin l ≤ t))
    ∧ (l.length = 1 → total_time_s l = ((l.headD r0).elapsed : ℚ) / 1000)
    ∧ (l.length = 0 → total_time_s l = 0)
    ∧ (0 < total_time_s l → throughput l = (total_count l : ℚ) / total_time_s l)
    ∧ (¬ 0 < total_time_s l → throughput l = 0)
    ∧ total_time_s [⟨1000, 500, "s", "200", true⟩] = 1 / 2
    ∧ throughput [⟨1000, 500, "s", "200", true⟩] = 2 := by
  refine ⟨?_, ?_, ?_, ?_, ?_, ?_, ?_⟩
  · intro h1
    have hne : l ≠ [] := by
      intro h
      rw [h] at h1
      simp at h1
    exact ⟨total_time_s_of_one_lt h1, tsMax_mem hne, fun t ht => le_tsMax ht,
      tsMin_mem hne, fun t ht => tsMin_le ht⟩
  · intro h1
    match l, h1 with
    | [r], _ => rfl
  · intro h0
    match l, h0 with
    | [], _ => rfl
  · intro hpos
    unfold throughput
    rw [if_pos hpos]
  · intro hneg
    unfold throughput
    rw [if_neg hneg]
  · with_unfolding_all decide
  · with_unfolding_all decide

/-- Claim C3, witness: a concrete two-record set satisfying `1 < length`, on
which the duration is the max-minus-min formula. -/
theorem duration_and_throughput_rules_witness :
    1 < ([⟨1000, 100, "s", "200", true⟩, ⟨3000, 300, "s", "400", false⟩] :
          List ResultRecord).length
    ∧ total_time_s [⟨1000, 100, "s", "200", true⟩, ⟨3000, 300, "s", "400", false⟩]
        = ((tsMax [⟨1000, 100, "s", "200", true⟩, ⟨3000, 300, "s", "400", false⟩]
            - tsMin [⟨1000, 100, "s", "200", true⟩, ⟨3000, 300, "s", "400", false⟩] : Int) : ℚ)
            / 1000 :=
  ⟨by decide,
    ((duration_and_throughput_rules
        [⟨1000, 100, "s", "200", true⟩, ⟨3000, 300, "s", "400", false⟩]
        ⟨0, 0, "", "", false⟩).1 (by decide)).1⟩

/-- Claim C4, counterexample: with the script's boundaries, a record with
`elapsed = 0` falls into no bucket (`pd.cut` with its default options leaves
the lowest edge out of the first interval), so the bucket counts sum to `0`
while the input holds one record — the claimed invariant fails. -/
theorem latency_distribution_drops_edge_record :
    (analyze_latency_distribution bins [⟨1000, 0, "s", "200", true⟩]).sum
      ≠ ([⟨1000, 0, "s", "200", true⟩] : List ResultRecord).length := by
  with_unfolding_all decide

/-- Claim C4, amended: for every non-decreasing boundary sequence, the bucket
intervals are left-open and right-closed (last interval open-ended); each
record whose `elapsed` exceeds the first boundary is assigned exactly one
bucket, records with `elapsed` at or below the first boundary are assigned
none, and the bucket counts sum to the number of records whose `elapsed`
strictly exceeds the first boundary. -/
theorem latency_distribution_sum_and_buckets (b : ℚ) (bs : List ℚ)
    (records : List ResultRecord)
    (hs : List.Sorted (fun x y => x ≤ y) (b :: bs)) :
    (analyze_latency_distribution (b :: bs) records).sum
        = (records.filter (fun r => decide (b < (r.elapsed : ℚ)))).length
    ∧ ∀ r ∈ records, b < (r.elapsed : ℚ) →
        ∃ i, latency_bin (b :: bs) r = some i
          ∧ i < (b :: bs).length
          ∧ (b :: bs).getD i 0 < (r.elapsed : ℚ)
          ∧ (i + 1 < (b :: bs).length → (r.elapsed : ℚ) ≤ (b :: bs).getD (i + 1) 0) := by
  constructor
  · rw [distribution_sum]
    have hcong : ∀ r ∈ records,
        (latency_bin (b :: bs) r).isSome = decide (b < (r.elapsed : ℚ)) := by
      intro r _
      by_cases hb : b < (r.elapsed : ℚ)
      · have hne : latency_bin (b :: bs) r ≠ none := by
          simp only [latency_bin]
          intro hnone
          exact absurd ((cutIndex_none_iff hs).mp hnone) (not_le.mpr hb)
        simp [Option.isSome_iff_ne_none, hne, hb]
      · have hnone : latency_bin (b :: bs) r = none := by
          simp only [latency_bin]
          exact (cutIndex_none_iff hs).mpr (not_lt.mp hb)
        simp [hnone, hb]
    exact congrArg List.length (List.filter_congr hcong)
  · intro r _ hb
    have hne : latency_bin (b :: bs) r ≠ none := by
      simp only [latency_bin]
      intro hnone
      exact absurd ((cutIndex_none_iff hs).mp hnone) (not_le.mpr hb)
    obtain ⟨i, hi⟩ := Option.ne_none_iff_exists'.mp hne
    exact ⟨i, hi, cutIndex_lt_length hi, (cutIndex_spec hi).1, (cutIndex_spec hi).2⟩

/-- Claim C4, witness: the script's boundaries are sorted and on a one-record
set with `elapsed = 100` the bucket counts sum to the number of records above
the first boundary. -/
theorem latency_distribution_sum_witness :
    List.Sorted (fun x y => x ≤ y) ((0 : ℚ) :: [50, 100, 200, 500, 1000, 2000])
    ∧ (analyze_latency_distribution ((0 : ℚ) :: [50, 100, 200, 500, 1000, 2000])
          [⟨1000, 100, "s", "200", true⟩]).sum
        = (([⟨1000, 100, "s", "200", true⟩] : List ResultRecord).filter
            (fun r => decide ((0 : ℚ) < (r.elapsed : ℚ)))).length :=
  ⟨by with_unfolding_all decide,
    (latency_distribution_sum_and_buckets 0 [50, 100, 200, 500, 1000, 2000]
        [⟨1000, 100, "s", "200", true⟩] (by with_unfolding_all decide)).1⟩

/-- Claim C5: the success and expected-failure classes are disjoint (a
response code cannot start with both `200` and `400`), so their counts sum to
at most the total count. -/
theorem success_plus_expected_failure_le_total (l : List ResultRecord) :
    success_count l + expected_failure_count l ≤ total_count l := by
  unfold success_count expected_failure_count total_count
  exact length_filter_add_length_filter_le
    (fun r => startsWithCode "200" r.responseCode)
    (fun r => startsWithCode "400" r.responseCode)
    (fun r => startsWithCode_200_400_disjoint r.responseCode) l

/-- Claim C6: the summary is invariant under permutation of the input —
two record sequences equal as multisets receive identical summaries in every
field, the duration and latency percentile included. -/
theorem summarize_perm_invariant (name : String) {l₁ l₂ : List ResultRecord}
    (h : l₁.Perm l₂) : summarize name l₁ = summarize name l₂ := by
  unfold summarize
  rw [total_count_eq_of_perm h, success_count_eq_of_perm h,
    expected_failure_count_eq_of_perm h, success_rate_eq_of_perm h,
    total_time_s_eq_of_perm h, throughput_eq_of_perm h, latency_95th_eq_of_perm h]

/-- Claim C6, witness: swapping two concrete records leaves the summary
unchanged. -/
theorem summarize_perm_invariant_witness :
    ([⟨1000, 100, "s", "200", true⟩, ⟨2000, 200, "s", "400", false⟩] :
        List ResultRecord).Perm
      [⟨2000, 200, "s", "400", false⟩, ⟨1000, 100, "s", "200", true⟩]
    ∧ summarize "run" [⟨1000, 100, "s", "200", true⟩, ⟨2000, 200, "s", "400", false⟩]
        = summarize "run" [⟨2000, 200, "s", "400", false⟩, ⟨1000, 100, "s", "200", true⟩] :=
  ⟨List.Perm.swap _ _ _, summarize_perm_invariant "run" (List.Perm.swap _ _ _)⟩

/-- Claim C7: every window the detector returns has a mean latency strictly
above `mult` times the mean of the window means, and when all windows share
one non-negative mean and the multiplier exceeds `1` the detector returns the
empty sequence (the script instantiates window width `5` and multiplier
`2`). -/
theorem detect_anomalous_only_above_threshold (w : ℕ) (mult m : ℚ)
    (records : List ResultRecord) :
    (∀ p ∈ detectAnomalousWindows w mult records,
        mult * listMean ((response_time_series w records).map (fun q => q.2)) < p.2)
    ∧ ((∀ x ∈ (response_time_series w records).map (fun q => q.2), x = m) →
        0 ≤ m → 1 < mult → detectAnomalousWindows w mult records = []) := by
  constructor
  · intro p hp
    simp only [detectAnomalousWindows, List.mem_filter, decide_eq_true_eq] at hp
    exact hp.2
  · intro hall hm hmult
    simp only [detectAnomalousWindows]
    rw [List.filter_eq_nil_iff]
    intro q hq
    have hq2 : q.2 = m := hall q.2 (List.mem_map_of_mem _ hq)
    have hne : (response_time_series w records).map (fun p => p.2) ≠ [] :=
      List.ne_nil_of_mem (List.mem_map_of_mem _ hq)
    have hmean : listMean ((response_time_series w records).map (fun p => p.2)) = m :=
      listMean_const hall hne
    rw [hmean, hq2]
    simp only [decide_eq_true_eq, not_lt]
    exact le_mul_of_one_le_left hm (le_of_lt hmult)

/-- Claim C7, witness: two records in distinct 5-second windows with equal
means, multiplier `2`: no window is flagged. -/
theorem detect_anomalous_witness :
    (∀ x ∈ (response_time_series 5
        [⟨0, 100, "s", "200", true⟩, ⟨6000, 100, "s", "200", true⟩]).map (fun q => q.2),
        x = (100 : ℚ))
    ∧ (0 : ℚ) ≤ 100 ∧ (1 : ℚ) < 2
    ∧ detectAnomalousWindows 5 2
        [⟨0, 100, "s", "200", true⟩, ⟨6000, 100, "s", "200", true⟩] = [] :=
  ⟨by with_unfolding_all decide, by with_unfolding_all decide, by with_unfolding_all decide,
    (detect_anomalous_only_above_threshold 5 2 100
        [⟨0, 100, "s", "200", true⟩, ⟨6000, 100, "s", "200", true⟩]).2
      (by with_unfolding_all decide) (by with_unfolding_all decide)
      (by with_unfolding_all decide)⟩

/-- Claim C8: a run whose file fails to load (missing or malformed) is
skipped — it contributes nothing to the batch — while a run that loads
contributes its summary; the remaining runs are processed either way. -/
theorem per_run_failure_is_skipped (fs : String → Except LoadError (List ResultRecord))
    (name path : String) (runs : List (String × String)) :
    (∀ e, fs path = Except.error e →
        visualize_stress_test_results fs ((name, path) :: runs)
          = visualize_stress_test_results fs runs)
    ∧ (∀ rows, fs path = Except.ok rows →
        visualize_stress_test_results fs ((name, path) :: runs)
          = summarize name (filterByLabel rows) :: visualize_stress_test_results fs runs) := by
  constructor
  · intro e he
    simp [visualize_stress_test_results, process_jtl, he]
  · intro rows hr
    simp [visualize_stress_test_results, process_jtl, hr]

/-- Claim C8, witness: with one missing file and one good file, the failing
run is dropped and the rest of the batch survives. -/
theorem per_run_failure_is_skipped_witness :
    (fun p => if p = "good.jtl" then Except.ok ([] : List ResultRecord)
              else Except.error LoadError.fileNotFound) "missing.jtl"
        = Except.error LoadError.fileNotFound
    ∧ visualize_stress_test_results
        (fun p => if p = "good.jtl" then Except.ok ([] : List ResultRecord)
                  else Except.error LoadError.fileNotFound)
        [("broken", "missing.jtl"), ("ok", "good.jtl")]
        = visualize_stress_test_results
            (fun p => if p = "good.jtl" then Except.ok ([] : List ResultRecord)
                      else Except.error LoadError.fileNotFound)
            [("ok", "good.jtl")] :=
  ⟨by rfl,
    (per_run_failure_is_skipped
        (fun p => if p = "good.jtl" then Except.ok ([] : List ResultRecord)
                  else Except.error LoadError.fileNotFound)
        "broken" "missing.jtl" [("ok", "good.jtl")]).1
      LoadError.fileNotFound (by rfl)⟩

/-- Claim C9: the entry point exits with `1` when the path argument is absent
(`len(sys.argv) < 2`) or the given path does not exist, and with `0` when the
path exists and the analysis succeeds. -/
theorem main_exit_codes (argv : List String) (pathExists analysisOk : String → Bool) :
    (argv.length < 2 → main argv pathExists analysisOk = 1)
    ∧ (2 ≤ argv.length → pathExists (argv[1]?.getD "") = false →
        main argv pathExists analysisOk = 1)
    ∧ (2 ≤ argv.length → pathExists (argv[1]?.getD "") = true →
        analysisOk (argv[1]?.getD "") = true → main argv pathExists analysisOk = 0) := by
  refine ⟨?_, ?_, ?_⟩
  · intro h
    unfold main
    rw [if_pos h]
  · intro h hpe
    unfold main
    rw [if_neg (by omega)]
    simp [hpe]
  · intro h hpe hok
    unfold main
    rw [if_neg (by omega)]
    simp [hpe, hok]

/-- Claim C9, witness: a present path and a successful analysis exit with
code `0`. -/
theorem main_exit_codes_witness :
    2 ≤ (["analyze.py", "results.jtl"] : List String).length
    ∧ (fun _ : String => true) ((["analyze.py", "results.jtl"] : List String)[1]?.getD "") = true
    ∧ main ["analyze.py", "results.jtl"] (fun _ => true) (fun _ => true) = 0 :=
  ⟨by decide, rfl,
    (main_exit_codes ["analyze.py", "results.jtl"] (fun _ => true) (fun _ => true)).2.2
      (by decide) rfl rfl⟩

/-- Claim C10: the success-rate computation is total — it is `0` when the
total count is `0` (no division is attempted) and `successCount / totalCount
* 100` otherwise. -/
theorem success_rate_total_function (l : List ResultRecord) :
    (total_count l = 0 → success_rate l = 0)
    ∧ (0 < total_count l →
        success_rate l = (success_count l : ℚ) / (total_count l : ℚ) * 100) := by
  constructor
  · intro h0
    unfold success_rate
    rw [if_neg (by omega)]
  · intro hpos
    unfold success_rate
    rw [if_pos hpos]

/-- Claim C10, witness: the empty set has total count `0` and success rate
`0`. -/
theorem success_rate_total_function_witness :
    total_count ([] : List ResultRecord) = 0 ∧ success_rate [] = 0 :=
  ⟨rfl, (success_rate_total_function []).1 rfl⟩

end OPS
